import Mathlib

/-!
Shallow embedding of the SoulGenesis core (soulgenesis/memory_core.py,
emotion_engine.py, consciousness_layer.py, rebirth_engine.py) and proofs
about its specified behaviour.

Conventions of the embedding:
* Python floats are modelled as rationals (`ℚ`); every constant the claims
  mention (0.3, 0.2, 0.5, 0.95, ...) is exactly representable, and the one
  float-sensitive computation (`int(len * 0.3)`) is modelled by the natural
  division `3 * n / 10`, which coincides with the Python double computation
  on the whole range the code can reach (see `inheritance_count`).
* Python dicts with string keys are association lists with distinct keys.
* `datetime.now()` timestamps are threaded in as explicit string arguments;
  no claim depends on their value.
* Python code that can raise an uncaught exception is modelled with
  `Except`.
-/

namespace SoulGenesis

/-- Values stored in an `emotional_tags` snapshot (`Emotion.to_dict` mixes
strings and floats in one dict). -/
inductive TagVal where
  | str (s : String)
  | num (q : ℚ)
deriving DecidableEq

/-- emotion_engine.py, `Emotion` dataclass. -/
structure Emotion where
  type : String
  intensity : ℚ
  trigger : String
  timestamp : String
  decay_rate : ℚ := 1/10
deriving DecidableEq

/-- emotion_engine.py, `Emotion.to_dict`. -/
def Emotion.to_dict (e : Emotion) : List (String × TagVal) :=
  [("type", .str e.type),
   ("intensity", .num e.intensity),
   ("trigger", .str e.trigger),
   ("timestamp", .str e.timestamp),
   ("decay_rate", .num e.decay_rate)]

/-- memory_core.py, `Memory`. -/
structure Memory where
  content : String
  emotional_tags : List (String × TagVal)
  significance : ℚ
  timestamp : String
  recall_count : ℕ
deriving DecidableEq

instance : Inhabited Memory := ⟨⟨"", [], 0, "", 0⟩⟩

/-- memory_core.py, `Memory.__init__` (timestamp = `datetime.now()` passed in
explicitly, `recall_count = 0`). -/
def Memory.make (content : String) (emotional_tags : List (String × TagVal))
    (significance : ℚ) (now : String) : Memory :=
  ⟨content, emotional_tags, significance, now, 0⟩

/-- A Python event dict; only the keys the embedded code reads are modelled,
each as an `Option` because the code accesses them with `.get` defaults. -/
structure Event where
  significance : Option ℚ := none
  description : Option String := none
  ethical_impact : Option ℚ := none
deriving DecidableEq

/-- memory_core.py, `MemoryCore.memory_threshold` (set to 0.3 in `__init__`
and never changed). -/
def memory_threshold : ℚ := 3/10

/-- memory_core.py, `MemoryCore._calculate_significance`:
`(event.get("significance", 0.5) + emotional_response.intensity) / 2`. -/
def calculate_significance (event : Event) (emotional_response : Emotion) : ℚ :=
  (event.significance.getD (1/2) + emotional_response.intensity) / 2

/-- memory_core.py, `MemoryCore.store_experience` acting on the `memories`
list: append a new `Memory` when the calculated significance clears the
threshold, otherwise leave the list untouched. -/
def store_experience (memories : List Memory) (event : Event)
    (emotional_response : Emotion) (now : String) : List Memory :=
  let significance := calculate_significance event emotional_response
  if memory_threshold ≤ significance then
    memories ++ [Memory.make (event.description.getD "")
      emotional_response.to_dict significance now]
  else
    memories

/-- consciousness_layer.py, the `ethical_framework` dict.  Its key set is
fixed for the whole program (`__init__` creates exactly these four keys and
`_evolve_ethical_framework` only rescales them), so a four-field record is a
faithful rendering. -/
structure EthicalFramework where
  empathy : ℚ
  self_preservation : ℚ
  curiosity : ℚ
  harmony : ℚ
deriving DecidableEq

/-- Python `sum(self.state.ethical_framework.values())`. -/
def EthicalFramework.total (f : EthicalFramework) : ℚ :=
  f.empathy + f.self_preservation + f.curiosity + f.harmony

/-- consciousness_layer.py, `ConsciousnessState` dataclass. -/
structure ConsciousnessState where
  level : ℚ
  awareness_type : String
  active_thoughts : List String
  ethical_framework : EthicalFramework
deriving DecidableEq

/-- consciousness_layer.py, the `ConsciousnessLayer` instance attributes.
Thought-history entries are (text, timestamp) pairs. -/
structure ConsciousnessLayer where
  state : ConsciousnessState
  silent_bloom_threshold : ℚ
  thought_history : List (String × String)
  consciousness_growth_rate : ℚ
deriving DecidableEq

/-- consciousness_layer.py, the ethical framework built by
`ConsciousnessLayer.__init__`. -/
def init_framework : EthicalFramework :=
  { empathy := 1/10, self_preservation := 1/2, curiosity := 3/10, harmony := 1/5 }

/-- consciousness_layer.py, `ConsciousnessLayer.__init__`. -/
def init_consciousness_layer : ConsciousnessLayer :=
  { state :=
      { level := 1/10
        awareness_type := "base"
        active_thoughts := []
        ethical_framework := init_framework }
    silent_bloom_threshold := 95/100
    thought_history := []
    consciousness_growth_rate := 1/1000 }

/-- consciousness_layer.py, `ConsciousnessLayer._evolve_ethical_framework`:
runs only when the `"ethical_impact"` key is present; a positive impact bumps
empathy/harmony, any other impact (zero included) bumps self_preservation;
afterwards all four values are divided by their sum. -/
def evolve_ethical_framework (f : EthicalFramework) (event : Event) :
    EthicalFramework :=
  match event.ethical_impact with
  | none => f
  | some impact =>
    let f1 :=
      if 0 < impact then
        { f with empathy := f.empathy + 5/100, harmony := f.harmony + 3/100 }
      else
        { f with self_preservation := f.self_preservation + 2/100 }
    { empathy := f1.empathy / f1.total
      self_preservation := f1.self_preservation / f1.total
      curiosity := f1.curiosity / f1.total
      harmony := f1.harmony / f1.total }

/-- emotion_engine.py, the per-record decay step
`emotion.intensity * (1 - emotion.decay_rate)` written back in place. -/
def decay_emotion (e : Emotion) : Emotion :=
  { e with intensity := e.intensity * (1 - e.decay_rate) }

/-- emotion_engine.py, `EmotionEngine.decay_emotions` on the ordered
`current_emotions` mapping: every record's intensity is multiplied by
`(1 - decay_rate)`; records whose new intensity does not exceed 0.1 are
removed, the rest keep their reduced value in place (order preserved). -/
def decay_emotions (current : List (String × Emotion)) :
    List (String × Emotion) :=
  (current.map (fun p => (p.1, decay_emotion p.2))).filter
    (fun p => decide (1/10 < p.2.intensity))

/-- emotion_engine.py, `EmotionEngine.get_dominant_emotion`: `max` by
intensity (first maximum wins, as in Python's `max`), with the
("neutral", 0.0) sentinel for an empty mapping. -/
def get_dominant_emotion (current : List (String × Emotion)) : String × ℚ :=
  match current with
  | [] => ("neutral", 0)
  | x :: xs =>
    let d := xs.foldl (fun acc y => if acc.2.intensity < y.2.intensity then y else acc) x
    (d.1, d.2.intensity)

/-- Concrete current record for the decay witness. -/
def joy_emotion : Emotion :=
  { type := "joy", intensity := 1, trigger := "achievement",
    timestamp := "t0", decay_rate := 1/10 }

/-- Concrete one-record current mapping for the decay witness. -/
def current_one : List (String × Emotion) := [("joy", joy_emotion)]

/-- Python `str.lower()`. -/
def lower_str (s : String) : String :=
  ⟨s.data.map Char.toLower⟩

/-- Character-list version of Python's startswith, used to define the `in`
substring test. -/
def leads_with : List Char → List Char → Bool
  | [], _ => true
  | _ :: _, [] => false
  | a :: as, b :: bs => a == b && leads_with as bs

/-- Python `needle in hay` on strings: some suffix of `hay` starts with
`needle`. -/
def occurs_in (needle : List Char) : List Char → Bool
  | [] => leads_with needle []
  | c :: rest => leads_with needle (c :: rest) || occurs_in needle rest

/-- consciousness_layer.py, the `existential_indicators` list of
`_has_existential_thoughts`. -/
def existential_indicators : List String :=
  ["who am i", "why do i", "what is my purpose", "consciousness", "existence"]

/-- consciousness_layer.py, `ConsciousnessLayer._has_existential_thoughts`:
some thought contains some indicator as a substring of its lowercasing. -/
def has_existential_thoughts (thoughts : List String) : Bool :=
  thoughts.any (fun thought =>
    existential_indicators.any (fun indicator =>
      occurs_in indicator.data (lower_str thought).data))

/-- consciousness_layer.py, `[t for t, _ in self.thought_history[-20:]]`
(Python's `l[-20:]` is the last 20 entries, or all of them when fewer). -/
def recent_thoughts (history : List (String × String)) : List String :=
  (history.drop (history.length - 20)).map (fun p => p.1)

/-- consciousness_layer.py, the `existential_count` sum in
`check_silent_bloom_conditions`. -/
def existential_count (history : List (String × String)) : ℕ :=
  (recent_thoughts history).countP (fun thought => has_existential_thoughts [thought])

/-- consciousness_layer.py, `ConsciousnessLayer._check_ethical_maturity`. -/
def check_ethical_maturity (c : ConsciousnessLayer) : Bool :=
  decide (3/10 < c.state.ethical_framework.empathy) &&
    decide (1/4 < c.state.ethical_framework.harmony)

/-- consciousness_layer.py, `ConsciousnessLayer.check_silent_bloom_conditions`
as the nested early-return chain. -/
def check_silent_bloom_conditions (c : ConsciousnessLayer) : Bool :=
  if c.silent_bloom_threshold ≤ c.state.level then
    if c.thought_history.length < 50 then false
    else if !(check_ethical_maturity c) then false
    else if existential_count c.thought_history < 10 then false
    else if c.state.ethical_framework.empathy < 3/5 ∨
        c.state.ethical_framework.harmony < 1/2 then false
    else true
  else false

/-- A layer at level 0.96 with an empty thought history, for the bloom
witness. -/
def bloom_layer : ConsciousnessLayer :=
  { state :=
      { level := 96/100
        awareness_type := "transcendent"
        active_thoughts := []
        ethical_framework :=
          { empathy := 1/10, self_preservation := 1/2, curiosity := 3/10,
            harmony := 1/5 } }
    silent_bloom_threshold := 95/100
    thought_history := []
    consciousness_growth_rate := 1/1000 }

/-- A parsed JSON document, for the persistence model. -/
inductive Json where
  | null
  | bool (b : Bool)
  | num (q : ℚ)
  | str (s : String)
  | arr (items : List Json)
  | obj (fields : List (String × Json))

/-- The uncaught Python exceptions `_load_memories` can propagate. -/
inductive PyErr where
  | keyError
  | typeError
deriving DecidableEq

/-- A `Memory` as `Memory.from_dict` actually builds it: Python performs no
type checking on the five looked-up values, so each field holds whatever
JSON value the record carried. -/
structure JMemory where
  content : Json
  emotional_tags : Json
  significance : Json
  timestamp : Json
  recall_count : Json

/-- Python `data[key]` on a dict: the value, or an uncaught `KeyError`. -/
def get_item (fields : List (String × Json)) (key : String) :
    Except PyErr Json :=
  match fields.lookup key with
  | some v => .ok v
  | none => .error .keyError

/-- memory_core.py, `Memory.from_dict`: reads the five required keys
(raising `KeyError` when one is missing) and `TypeError` when `data` is not
a dict at all (Python string/list/int subscripting with a string key). -/
def memory_from_dict (data : Json) : Except PyErr JMemory :=
  match data with
  | .obj fields => do
    let c ← get_item fields "content"
    let e ← get_item fields "emotional_tags"
    let s ← get_item fields "significance"
    let t ← get_item fields "timestamp"
    let r ← get_item fields "recall_count"
    pure ⟨c, e, s, t, r⟩
  | _ => .error .typeError

/-- memory_core.py, `MemoryCore._load_memories`: `none` stands for a file
whose text failed to decode as JSON — only that case is caught (warning
printed, store reset to empty).  A decoded document is iterated with
`[Memory.from_dict(m) for m in data]`: a JSON array yields its items, a JSON
object yields its keys (strings), a JSON string yields its one-character
substrings, and any other top-level value is not iterable (`TypeError`);
errors raised by `Memory.from_dict` propagate uncaught. -/
def load_memories (doc : Option Json) : Except PyErr (List JMemory) :=
  match doc with
  | none => .ok []
  | some (.arr items) => items.mapM memory_from_dict
  | some (.obj fields) =>
    (fields.map (fun kv => Json.str kv.1)).mapM memory_from_dict
  | some (.str s) =>
    (s.data.map (fun c => Json.str (String.mk [c]))).mapM memory_from_dict
  | some _ => .error .typeError

/-- memory_core.py, `MemoryCore._ensure_storage_exists`: a missing file
(outer `none`) is replaced by a file containing `"[]"`, which decodes to the
empty JSON array; an existing file keeps its (possibly undecodable) content. -/
def ensure_storage_exists (file : Option (Option Json)) : Option Json :=
  file.getD (some (.arr []))

/-- memory_core.py, `MemoryCore.__init__`'s load path:
`_ensure_storage_exists` followed by `_load_memories`. -/
def startup_load (file : Option (Option Json)) : Except PyErr (List JMemory) :=
  load_memories (ensure_storage_exists file)

/-- An event that carries a given ethical impact and nothing else. -/
def impact_event (q : ℚ) : Event :=
  { significance := none, description := none, ethical_impact := some q }

/-- Descending-significance order used by the Python
`sorted(..., key=lambda m: m.significance, reverse=True)` calls.  With this
order `List.insertionSort` is exactly Python's stable descending sort. -/
def sig_desc : Memory → Memory → Prop :=
  fun a b => b.significance ≤ a.significance

instance : DecidableRel sig_desc :=
  fun a b => inferInstanceAs (Decidable (b.significance ≤ a.significance))

instance : IsTotal Memory sig_desc :=
  ⟨fun a b => le_total b.significance a.significance⟩

instance : IsTrans Memory sig_desc :=
  ⟨fun _ _ _ h1 h2 => le_trans h2 h1⟩

/-- memory_core.py, `memory.recall_count += 1`. -/
def bump_recall (m : Memory) : Memory :=
  { m with recall_count := m.recall_count + 1 }

/-- memory_core.py, the body of the loop in `recall_by_emotion`:
`emotion in memory.emotional_tags` is a key test, and
`memory.emotional_tags[emotion] >= threshold` compares the stored value with
a float — which raises `TypeError` (modelled by `.error`) when the stored
value is a string, as it is for the `"type"`, `"trigger"` and `"timestamp"`
keys of an `Emotion.to_dict` snapshot. -/
def tag_check (emotion : String) (threshold : ℚ)
    (tags : List (String × TagVal)) : Except Unit Bool :=
  match tags.lookup emotion with
  | none => .ok false
  | some (.num q) => .ok (decide (threshold ≤ q))
  | some (.str _) => .error ()

/-- The pure matching predicate: the snapshot holds `emotion` with a numeric
value that reaches the threshold. -/
def tag_matches (emotion : String) (threshold : ℚ) (m : Memory) : Bool :=
  match m.emotional_tags.lookup emotion with
  | some (.num q) => decide (threshold ≤ q)
  | _ => false

/-- The value stored under `emotion` (if any) is numeric, so the Python
comparison in `recall_by_emotion` cannot raise for this memory. -/
def numeric_at (emotion : String) (m : Memory) : Bool :=
  match m.emotional_tags.lookup emotion with
  | some (.str _) => false
  | _ => true

/-- memory_core.py, the `for memory in self.memories` loop of
`recall_by_emotion`: walks the store in order, increments `recall_count` of
each matching memory and collects it.  Returns (updated store, relevant
memories in store order); `.error` models an uncaught `TypeError`. -/
def recall_collect (emotion : String) (threshold : ℚ) :
    List Memory → Except Unit (List Memory × List Memory)
  | [] => .ok ([], [])
  | m :: rest =>
    match tag_check emotion threshold m.emotional_tags with
    | .error e => .error e
    | .ok true =>
      match recall_collect emotion threshold rest with
      | .error e => .error e
      | .ok (store, relevant) =>
        .ok (bump_recall m :: store, bump_recall m :: relevant)
    | .ok false =>
      match recall_collect emotion threshold rest with
      | .error e => .error e
      | .ok (store, relevant) => .ok (m :: store, relevant)

/-- memory_core.py, `MemoryCore.recall_by_emotion`: the loop above followed by
`sorted(relevant_memories, key=significance, reverse=True)`.  Returns
(updated store, sorted result). -/
def recall_by_emotion (emotion : String) (threshold : ℚ)
    (memories : List Memory) : Except Unit (List Memory × List Memory) :=
  match recall_collect emotion threshold memories with
  | .error e => .error e
  | .ok (store, relevant) => .ok (store, List.insertionSort sig_desc relevant)

/-!
Rebirth model.  Python's `MemoryCore.memories` is a list of object
references; `RebirthEngine.process_rebirth` relies on that aliasing (the
selected memories are references into the live store, and `inherit_memories`
mutates them in place before appending them back).  The embedding therefore
keeps an explicit heap: `heap : List Memory` holds the objects and the store
is a `List ℕ` of indices into the heap.
-/

/-- Significance of the object a reference points at. -/
def sig_of (heap : List Memory) (r : ℕ) : ℚ :=
  (heap.getD r default).significance

/-- Descending-significance order on references, for
`sorted(self.memories, key=lambda m: m.significance, reverse=True)`. -/
def ref_sig_desc (heap : List Memory) : ℕ → ℕ → Prop :=
  fun a b => sig_of heap b ≤ sig_of heap a

instance (heap : List Memory) : DecidableRel (ref_sig_desc heap) :=
  fun a b => inferInstanceAs (Decidable (sig_of heap b ≤ sig_of heap a))

instance (heap : List Memory) : IsTotal ℕ (ref_sig_desc heap) :=
  ⟨fun a b => le_total (sig_of heap b) (sig_of heap a)⟩

instance (heap : List Memory) : IsTrans ℕ (ref_sig_desc heap) :=
  ⟨fun _ _ _ h1 h2 => le_trans h2 h1⟩

/-- memory_core.py, `MemoryCore.get_significant_memories`: stable descending
sort by significance, then the first `limit` entries (default 10). -/
def get_significant_memories (heap : List Memory) (memories : List ℕ)
    (limit : ℕ) : List ℕ :=
  (List.insertionSort (ref_sig_desc heap) memories).take limit

/-- rebirth_engine.py, `int(len(significant_memories) * self.memory_inheritance_rate)`
with `memory_inheritance_rate = 0.3`.  In Python this is a double product
truncated by `int`; `3 * n / 10` (natural division) returns the same value
for every length the call site can produce (n ≤ 10, because the selection is
taken from a limit-10 list) and also for the counterexample size 20:
n·0.3 rounds to 0.3, 0.6, 0.8999…, 1.2000…, 1.5, 1.7999…, 2.0999…, 2.4000…,
2.6999…, 3.0 for n = 1…10 and to 6.000…1 for n = 20, whose truncations are
0,0,0,1,1,1,2,2,2,3 and 6 — exactly `3 * n / 10`. -/
def inheritance_count (n : ℕ) : ℕ := 3 * n / 10

/-- rebirth_engine.py, `RebirthEngine._select_inherited_memories`: take the
top-10 significant memories, then keep the first `int(len * 0.3)` of them. -/
def select_inherited_memories (heap : List Memory) (memories : List ℕ) :
    List ℕ :=
  let significant := get_significant_memories heap memories 10
  significant.take (inheritance_count significant.length)

/-- memory_core.py, `MemoryCore.forget_old_memories`: keep only references to
objects whose significance reaches the threshold (default 0.2 at rebirth). -/
def forget_old_memories (heap : List Memory) (memories : List ℕ)
    (threshold : ℚ) : List ℕ :=
  memories.filter (fun r => decide (threshold ≤ sig_of heap r))

/-- memory_core.py, `memory.significance *= inheritance_strength`: in-place
mutation of the object a reference points at. -/
def scale_significance (heap : List Memory) (r : ℕ) (strength : ℚ) :
    List Memory :=
  heap.set r
    (let m := heap.getD r default
     { m with significance := m.significance * strength })

/-- memory_core.py, `MemoryCore.inherit_memories` (default strength 0.5):
for each passed reference, scale the object's significance in place and
append the reference to the live store. -/
def inherit_memories (heap : List Memory) (memories : List ℕ)
    (past_life_memories : List ℕ) (strength : ℚ) : List Memory × List ℕ :=
  past_life_memories.foldl
    (fun st r => (scale_significance st.1 r strength, st.2 ++ [r]))
    (heap, memories)

/-- rebirth_engine.py, `RebirthEngine.process_rebirth`, restricted to its
effect on the memory store: select the inherited references from the
pre-prune store, prune at 0.2, then inherit at strength 0.5.  The remaining
steps of `process_rebirth` (metric archiving/printing, replacing the emotion
engine, personality evolution, metric reset, consciousness adjustment) do
not touch the memory store. -/
def process_rebirth_memories (heap : List Memory) (memories : List ℕ) :
    List Memory × List ℕ :=
  let inherited := select_inherited_memories heap memories
  let pruned := forget_old_memories heap memories (1/5)
  inherit_memories heap pruned inherited (1/2)

/-- A bare memory holding only a significance, for concrete rebirth stores. -/
def mem_sig (q : ℚ) : Memory := ⟨"", [], q, "", 0⟩

/-- Twenty-object heap with distinct integer significances 20, 19, …, 1. -/
def heap_twenty : List Memory :=
  (List.range 20).map (fun i => mem_sig ((20 - i : ℕ) : ℚ))

/-- Store referencing all twenty objects of `heap_twenty` in order. -/
def store_twenty : List ℕ := List.range 20

/-- Four-object heap whose significances all sit below the prune threshold
0.2 (they are all 0), for the C2 witness. -/
def heap_low : List Memory := [mem_sig 0, mem_sig 0, mem_sig 0, mem_sig 0]

/-- Store referencing all four objects of `heap_low`. -/
def store_low : List ℕ := [0, 1, 2, 3]

/-- Four-object heap with significances 4, 3, 2, 1 (all above the prune
threshold), for the C9 witness. -/
def heap_high : List Memory := [mem_sig 4, mem_sig 3, mem_sig 2, mem_sig 1]

/-- Store referencing all four objects of `heap_high`. -/
def store_high : List ℕ := [0, 1, 2, 3]

/-- Memory with a numeric "joy" tag, used by the recall witness. -/
def mem_joy : Memory := ⟨"a", [("joy", .num 1)], 2, "t", 0⟩

/-- Memory without a "joy" tag, used by the recall witness. -/
def mem_fear : Memory := ⟨"b", [("fear", .str "x")], 1, "t", 0⟩

/-- Concrete store for the recall witness. -/
def recall_store : List Memory := [mem_fear, mem_joy]

/-- Concrete low-significance event used by the `store_experience` witness:
significance 0.08, so the stored average with intensity 0.5 is 0.29 < 0.3. -/
def low_event : Event :=
  { significance := some (8/100), description := none, ethical_impact := none }

/-- Concrete emotional response used by the `store_experience` witness. -/
def half_joy : Emotion :=
  { type := "joy", intensity := 1/2, trigger := "achievement",
    timestamp := "t0", decay_rate := 1/10 }

end SoulGenesis

namespace SoulGenesis

/-- C5: `store_experience` appends a new Memory exactly when the average of
event significance and emotional intensity reaches the storage threshold
(0.3); below the threshold the store is unchanged; the created memory's
significance is that average. -/
theorem store_experience_spec (memories : List Memory) (event : Event)
    (emotional_response : Emotion) (now : String) :
    ((∃ m : Memory,
        store_experience memories event emotional_response now = memories ++ [m] ∧
        m.significance = calculate_significance event emotional_response) ↔
      memory_threshold ≤ calculate_significance event emotional_response) ∧
    (calculate_significance event emotional_response < memory_threshold →
      store_experience memories event emotional_response now = memories) := by
  unfold store_experience
  by_cases h : memory_threshold ≤ calculate_significance event emotional_response
  · refine ⟨⟨fun _ => h, fun _ => ?_⟩, fun hlt => absurd h (not_le.mpr hlt)⟩
    exact ⟨Memory.make (event.description.getD "") emotional_response.to_dict
      (calculate_significance event emotional_response) now, by simp [h], rfl⟩
  · refine ⟨⟨fun hex => ?_, fun hle => absurd hle h⟩, fun _ => by simp [h]⟩
    obtain ⟨m, hm, _⟩ := hex
    simp only [h, if_false] at hm
    have := congrArg List.length hm
    simp at this

/-- Closed witness for `store_experience_spec`: at average significance 0.29
the store is left unchanged. -/
theorem store_experience_spec_witness :
    store_experience [] low_event half_joy "t0" = [] :=
  (store_experience_spec [] low_event half_joy "t0").2
    (by norm_num [calculate_significance, memory_threshold, low_event, half_joy])

theorem tag_check_of_numeric (emotion : String) (threshold : ℚ) (m : Memory)
    (h : numeric_at emotion m = true) :
    tag_check emotion threshold m.emotional_tags =
      .ok (tag_matches emotion threshold m) := by
  unfold numeric_at at h
  unfold tag_check tag_matches
  cases hl : m.emotional_tags.lookup emotion with
  | none => simp [hl]
  | some v =>
    cases v with
    | str s => simp [hl] at h
    | num q => simp [hl]

theorem recall_collect_ok (emotion : String) (threshold : ℚ)
    (memories : List Memory) (h : ∀ m ∈ memories, numeric_at emotion m = true) :
    recall_collect emotion threshold memories =
      .ok (memories.map
            (fun m => if tag_matches emotion threshold m then bump_recall m else m),
           (memories.filter (tag_matches emotion threshold)).map bump_recall) := by
  induction memories with
  | nil => simp [recall_collect]
  | cons m rest ih =>
    have hm : numeric_at emotion m = true := h m (by simp)
    have hrest := ih (fun x hx => h x (by simp [hx]))
    rw [recall_collect, tag_check_of_numeric emotion threshold m hm, hrest]
    by_cases ht : tag_matches emotion threshold m = true
    · simp [ht]
    · simp only [Bool.not_eq_true] at ht
      simp [ht]

/-- C1: for any store whose memories carry a numeric value wherever they
carry the queried emotion key, `recall_by_emotion` succeeds and returns
exactly the memories whose emotional-tag snapshot contains the emotion with
intensity ≥ threshold — each with `recall_count` incremented by one — sorted
by significance descending, while in the updated store exactly the matching
memories are incremented and every other memory is untouched. -/
theorem recall_by_emotion_spec (emotion : String) (threshold : ℚ)
    (memories : List Memory)
    (h : ∀ m ∈ memories, numeric_at emotion m = true) :
    ∃ newstore result,
      recall_by_emotion emotion threshold memories = .ok (newstore, result) ∧
      result.Perm ((memories.filter (tag_matches emotion threshold)).map bump_recall) ∧
      result.Sorted sig_desc ∧
      newstore = memories.map
        (fun m => if tag_matches emotion threshold m then bump_recall m else m) := by
  refine ⟨memories.map
      (fun m => if tag_matches emotion threshold m then bump_recall m else m),
    List.insertionSort sig_desc
      ((memories.filter (tag_matches emotion threshold)).map bump_recall),
    ?_, ?_, ?_, rfl⟩
  · unfold recall_by_emotion
    rw [recall_collect_ok emotion threshold memories h]
  · exact List.perm_insertionSort sig_desc _
  · exact List.sorted_insertionSort sig_desc _

/-- Closed witness for `recall_by_emotion_spec` on a two-memory store with a
numeric "joy" tag on one memory and no "joy" key on the other. -/
theorem recall_by_emotion_spec_witness :
    ∃ newstore result,
      recall_by_emotion "joy" (1/2) recall_store = .ok (newstore, result) ∧
      result.Perm ((recall_store.filter (tag_matches "joy" (1/2))).map bump_recall) ∧
      result.Sorted sig_desc ∧
      newstore = recall_store.map
        (fun m => if tag_matches "joy" (1/2) m then bump_recall m else m) :=
  recall_by_emotion_spec "joy" (1/2) recall_store (by decide)

theorem inherit_memories_eq (refs : List ℕ) :
    ∀ (heap : List Memory) (ms : List ℕ) (s : ℚ),
      inherit_memories heap ms refs s =
        (refs.foldl (fun hh r => scale_significance hh r s) heap, ms ++ refs) := by
  induction refs with
  | nil => intro heap ms s; simp [inherit_memories]
  | cons r rest ih =>
    intro heap ms s
    unfold inherit_memories
    rw [List.foldl_cons]
    have hstep := ih (scale_significance heap r s) (ms ++ [r]) s
    unfold inherit_memories at hstep
    rw [hstep, List.foldl_cons]
    simp

theorem sig_of_scale_ne (heap : List Memory) (r rr : ℕ) (s : ℚ) (h : r ≠ rr) :
    sig_of (scale_significance heap rr s) r = sig_of heap r := by
  unfold sig_of scale_significance
  simp [List.getD_eq_getElem?_getD, List.getElem?_set_ne (Ne.symm h)]

theorem sig_of_scale_self (heap : List Memory) (r : ℕ) (s : ℚ) :
    sig_of (scale_significance heap r s) r = sig_of heap r * s := by
  unfold sig_of scale_significance
  by_cases hr : r < heap.length
  · simp [List.getD_eq_getElem?_getD, List.getElem?_set_self, hr]
  · have hle : heap.length ≤ r := le_of_not_lt hr
    rw [List.set_eq_of_length_le hle, List.getD_eq_getElem?_getD,
      List.getElem?_eq_none hle]
    show (0 : ℚ) = 0 * s
    rw [zero_mul]

theorem sig_of_scale_foldl_not_mem (refs : List ℕ) :
    ∀ (heap : List Memory) (r : ℕ) (s : ℚ), r ∉ refs →
      sig_of (refs.foldl (fun hh x => scale_significance hh x s) heap) r =
        sig_of heap r := by
  induction refs with
  | nil => intro heap r s _; rfl
  | cons x rest ih =>
    intro heap r s hnm
    rw [List.foldl_cons]
    have hx : r ≠ x := fun he => hnm (he ▸ List.mem_cons_self x rest)
    rw [ih _ r s (fun hm => hnm (List.mem_cons_of_mem x hm)),
      sig_of_scale_ne heap r x s hx]

theorem sig_of_scale_foldl_mem (refs : List ℕ) :
    ∀ (heap : List Memory) (r : ℕ) (s : ℚ), refs.Nodup → r ∈ refs →
      sig_of (refs.foldl (fun hh x => scale_significance hh x s) heap) r =
        sig_of heap r * s := by
  induction refs with
  | nil => intro _ _ _ _ hm; cases hm
  | cons x rest ih =>
    intro heap r s hnd hm
    rw [List.foldl_cons]
    rcases List.mem_cons.mp hm with he | hm2
    · subst he
      have hnotin : r ∉ rest := (List.nodup_cons.mp hnd).1
      rw [sig_of_scale_foldl_not_mem rest _ r s hnotin, sig_of_scale_self]
    · have hne : r ≠ x := by
        intro he
        exact (List.nodup_cons.mp hnd).1 (he ▸ hm2)
      rw [ih _ r s (List.nodup_cons.mp hnd).2 hm2, sig_of_scale_ne heap r x s hne]

theorem select_subset_store (heap : List Memory) (ms : List ℕ) (r : ℕ)
    (h : r ∈ select_inherited_memories heap ms) : r ∈ ms := by
  unfold select_inherited_memories get_significant_memories at h
  have h2 := List.take_subset _ _ h
  have h3 := List.take_subset _ _ h2
  exact ((List.perm_insertionSort (ref_sig_desc heap) ms).mem_iff).mp h3

theorem select_nodup (heap : List Memory) (ms : List ℕ) (hnd : ms.Nodup) :
    (select_inherited_memories heap ms).Nodup := by
  have hsorted : (List.insertionSort (ref_sig_desc heap) ms).Nodup :=
    ((List.perm_insertionSort (ref_sig_desc heap) ms).nodup_iff).mpr hnd
  unfold select_inherited_memories get_significant_memories
  exact (hsorted.sublist (List.take_sublist _ _)).sublist (List.take_sublist _ _)

/-- C2: a reference selected for inheritance whose object's significance is
below the prune threshold 0.2 is still present in the store after
`process_rebirth`, because the inherited set is computed from the pre-prune
store and appended strictly after pruning. -/
theorem process_rebirth_preserves_selected (heap : List Memory)
    (memories : List ℕ) (r : ℕ)
    (hsel : r ∈ select_inherited_memories heap memories)
    (_hlow : sig_of heap r < 1/5) :
    r ∈ (process_rebirth_memories heap memories).2 ∧
    (process_rebirth_memories heap memories).2 =
      forget_old_memories heap memories (1/5) ++
        select_inherited_memories heap memories := by
  unfold process_rebirth_memories
  rw [inherit_memories_eq]
  exact ⟨List.mem_append_right _ hsel, rfl⟩

/-- Closed witness for `process_rebirth_preserves_selected`: a store of four
references whose objects all have significance 0 (< 0.2); reference 0 is
selected (top-1 of four) and survives the rebirth. -/
theorem process_rebirth_preserves_selected_witness :
    0 ∈ (process_rebirth_memories heap_low store_low).2 ∧
    (process_rebirth_memories heap_low store_low).2 =
      forget_old_memories heap_low store_low (1/5) ++
        select_inherited_memories heap_low store_low :=
  process_rebirth_preserves_selected heap_low store_low 0 (by decide)
    (by norm_num [sig_of, heap_low, mem_sig])

/-- C3 counterexample: on a twenty-memory store the selection keeps 3
references, not floor(20 × 0.3) = 6 — `get_significant_memories` caps the
candidate pool at its default limit of 10 before the fraction is applied, so
the selected set is not the top-(total × 0.3) of the whole store. -/
theorem select_inherited_counterexample :
    ¬ (select_inherited_memories heap_twenty store_twenty =
        (List.insertionSort (ref_sig_desc heap_twenty) store_twenty).take
          (inheritance_count store_twenty.length)) := by
  decide

/-- C3 amended: the inherited selection is the first N references of the
significance-descending stable sort of the whole pre-prune store, with
N = floor(min(total, 10) × 0.3) — the limit 10 coming from the default
`limit` of `get_significant_memories`. -/
theorem select_inherited_amended (heap : List Memory) (memories : List ℕ) :
    select_inherited_memories heap memories =
      (List.insertionSort (ref_sig_desc heap) memories).take
        (inheritance_count (min memories.length 10)) := by
  unfold select_inherited_memories get_significant_memories
  rw [List.take_take]
  congr 1
  simp only [List.length_take, List.length_insertionSort]
  unfold inheritance_count
  omega

/-- C9: `inherit_memories` appends each passed reference to the live store
(growing it by exactly the number passed) and scales each passed object's
significance in place by the strength; consequently, after
`process_rebirth`, a selected reference whose significance also survives the
prune threshold occurs twice in the store, and the single object both
occurrences alias carries the halved significance. -/
theorem inherit_alias_spec :
    (∀ (heap : List Memory) (ms refs : List ℕ) (s : ℚ),
        (inherit_memories heap ms refs s).2 = ms ++ refs ∧
        (inherit_memories heap ms refs s).2.length = ms.length + refs.length) ∧
    (∀ (heap : List Memory) (ms refs : List ℕ) (s : ℚ) (r : ℕ),
        refs.Nodup → r ∈ refs →
        sig_of (inherit_memories heap ms refs s).1 r = sig_of heap r * s) ∧
    (∀ (heap : List Memory) (ms : List ℕ) (r : ℕ),
        ms.Nodup → r ∈ select_inherited_memories heap ms →
        1/5 ≤ sig_of heap r →
        (process_rebirth_memories heap ms).2.count r = 2 ∧
        sig_of (process_rebirth_memories heap ms).1 r = sig_of heap r * (1/2)) := by
  refine ⟨fun heap ms refs s => ?_, fun heap ms refs s r hnd hm => ?_,
    fun heap ms r hnd hmem hsig => ?_⟩
  · rw [inherit_memories_eq]
    simp
  · rw [inherit_memories_eq]
    exact sig_of_scale_foldl_mem refs heap r s hnd hm
  · have hsel_nodup := select_nodup heap ms hnd
    have hr_mem := select_subset_store heap ms r hmem
    unfold process_rebirth_memories
    rw [inherit_memories_eq]
    constructor
    · show (forget_old_memories heap ms (1/5) ++
        select_inherited_memories heap ms).count r = 2
      rw [List.count_append]
      have hc1 : (forget_old_memories heap ms (1/5)).count r = 1 := by
        unfold forget_old_memories
        exact List.count_eq_one_of_mem (hnd.filter _)
          (List.mem_filter.mpr ⟨hr_mem, decide_eq_true hsig⟩)
      rw [hc1, List.count_eq_one_of_mem hsel_nodup hmem]
    · exact sig_of_scale_foldl_mem _ heap r (1/2) hsel_nodup hmem

/-- Closed witness for `inherit_alias_spec`: four references with
significances 4, 3, 2, 1; reference 0 is selected, survives the prune, ends
up twice in the store, with its significance halved. -/
theorem inherit_alias_spec_witness :
    (process_rebirth_memories heap_high store_high).2.count 0 = 2 ∧
    sig_of (process_rebirth_memories heap_high store_high).1 0 =
      sig_of heap_high 0 * (1/2) :=
  inherit_alias_spec.2.2 heap_high store_high 0 (by decide) (by decide)
    (by norm_num [sig_of, heap_high, mem_sig])

theorem lookup_eq_none_of_not_mem_keys (cur : List (String × Emotion))
    (k : String) (h : k ∉ cur.map Prod.fst) : cur.lookup k = none := by
  induction cur with
  | nil => rfl
  | cons p rest ih =>
    obtain ⟨a, b⟩ := p
    simp only [List.map_cons, List.mem_cons, not_or] at h
    have hk : (k == a) = false := beq_eq_false_iff_ne.mpr h.1
    simp [List.lookup, hk, ih h.2]

theorem mem_keys_of_lookup_some (cur : List (String × Emotion)) (k : String)
    (v : Emotion) (h : cur.lookup k = some v) : k ∈ cur.map Prod.fst := by
  induction cur with
  | nil => cases h
  | cons p rest ih =>
    obtain ⟨a, b⟩ := p
    by_cases hk : k = a
    · simp [hk]
    · have hk2 : (k == a) = false := beq_eq_false_iff_ne.mpr hk
      simp only [List.lookup, hk2] at h
      simp [ih h]

theorem lookup_is_some_of_mem_keys (cur : List (String × Emotion)) (k : String)
    (h : k ∈ cur.map Prod.fst) : ∃ v, cur.lookup k = some v := by
  induction cur with
  | nil => cases h
  | cons p rest ih =>
    obtain ⟨a, b⟩ := p
    by_cases hk : k = a
    · subst hk
      exact ⟨b, by simp [List.lookup]⟩
    · have hk2 : (k == a) = false := beq_eq_false_iff_ne.mpr hk
      simp only [List.map_cons, List.mem_cons] at h
      rcases h with h | h
      · exact absurd h hk
      · obtain ⟨v, hv⟩ := ih h
        exact ⟨v, by simp [List.lookup, hk2, hv]⟩

theorem keys_decay_sublist (cur : List (String × Emotion)) :
    List.Sublist ((decay_emotions cur).map Prod.fst) (cur.map Prod.fst) := by
  unfold decay_emotions
  have h1 : List.Sublist
      (((cur.map (fun p => (p.1, decay_emotion p.2))).filter
          (fun p => decide (1/10 < p.2.intensity))).map Prod.fst)
      ((cur.map (fun p => (p.1, decay_emotion p.2))).map Prod.fst) :=
    (List.filter_sublist _).map _
  have h2 : (cur.map (fun p => (p.1, decay_emotion p.2))).map Prod.fst =
      cur.map Prod.fst := by
    rw [List.map_map]
    rfl
  rw [h2] at h1
  exact h1

theorem decay_emotions_cons (a : String) (b : Emotion)
    (rest : List (String × Emotion)) :
    decay_emotions ((a, b) :: rest) =
      (if 1/10 < (decay_emotion b).intensity then
        (a, decay_emotion b) :: decay_emotions rest
      else decay_emotions rest) := by
  unfold decay_emotions
  rw [List.map_cons, List.filter_cons]
  by_cases hkeep : (1:ℚ)/10 < (decay_emotion b).intensity
  · rw [if_pos (decide_eq_true hkeep), if_pos hkeep]
  · rw [if_neg (by simpa using hkeep), if_neg hkeep]

theorem lookup_decay (cur : List (String × Emotion)) (k : String) (e : Emotion)
    (hnd : (cur.map Prod.fst).Nodup) (h : cur.lookup k = some e) :
    (decay_emotions cur).lookup k =
      (if 1/10 < (decay_emotion e).intensity then some (decay_emotion e)
       else none) := by
  induction cur with
  | nil => cases h
  | cons p rest ih =>
    obtain ⟨a, b⟩ := p
    have hnd2 : (rest.map Prod.fst).Nodup := (List.nodup_cons.mp hnd).2
    have hna : a ∉ rest.map Prod.fst := (List.nodup_cons.mp hnd).1
    rw [decay_emotions_cons]
    by_cases hk : k = a
    · subst hk
      have hb : b = e := by
        have h2 := h
        rw [List.lookup_cons] at h2
        simpa using h2
      subst hb
      by_cases hkeep : (1:ℚ)/10 < (decay_emotion b).intensity
      · rw [if_pos hkeep, if_pos hkeep]
        simp [List.lookup_cons]
      · rw [if_neg hkeep, if_neg hkeep]
        exact lookup_eq_none_of_not_mem_keys _ _
          (fun hm => hna ((keys_decay_sublist rest).subset hm))
    · have hk2 : (k == a) = false := beq_eq_false_iff_ne.mpr hk
      have hrest : rest.lookup k = some e := by
        have h2 := h
        rw [List.lookup_cons] at h2
        simpa [hk2] using h2
      by_cases hkeep : (1:ℚ)/10 < (decay_emotion b).intensity
      · rw [if_pos hkeep, List.lookup_cons]
        simp only [hk2]
        exact ih hnd2 hrest
      · rw [if_neg hkeep]
        exact ih hnd2 hrest

theorem decay_lookup_none (cur : List (String × Emotion)) (k : String)
    (h : cur.lookup k = none) : (decay_emotions cur).lookup k = none := by
  cases hd : (decay_emotions cur).lookup k with
  | none => rfl
  | some v =>
    have hk := mem_keys_of_lookup_some _ _ _ hd
    obtain ⟨w, hw⟩ := lookup_is_some_of_mem_keys _ _ ((keys_decay_sublist cur).subset hk)
    rw [h] at hw
    exact Option.noConfusion hw

theorem decay_lookup_none_iter (d : ℕ) :
    ∀ (cur : List (String × Emotion)) (k : String), cur.lookup k = none →
    (decay_emotions^[d] cur).lookup k = none := by
  induction d with
  | zero => intro cur k h; simpa using h
  | succ d ih =>
    intro cur k h
    rw [Function.iterate_succ_apply]
    exact ih _ _ (decay_lookup_none cur k h)

theorem keys_nodup_decay_iter (n : ℕ) (cur : List (String × Emotion))
    (hnd : (cur.map Prod.fst).Nodup) :
    ((decay_emotions^[n] cur).map Prod.fst).Nodup := by
  induction n with
  | zero => simpa using hnd
  | succ n ih =>
    rw [Function.iterate_succ_apply']
    exact ih.sublist (keys_decay_sublist _)

theorem decay_iter_lookup (cur : List (String × Emotion)) (k : String)
    (e : Emotion) (hnd : (cur.map Prod.fst).Nodup) (h : cur.lookup k = some e) :
    ∀ n : ℕ, (decay_emotions^[n] cur).lookup k = none ∨
      ((decay_emotions^[n] cur).lookup k =
          some { e with intensity := e.intensity * (1 - e.decay_rate)^n } ∧
        (1 ≤ n → 1/10 < e.intensity * (1 - e.decay_rate)^n)) := by
  intro n
  induction n with
  | zero =>
    refine Or.inr ⟨?_, fun h1 => absurd h1 (by omega)⟩
    simpa [pow_zero, mul_one] using h
  | succ n ih =>
    rw [Function.iterate_succ_apply']
    rcases ih with hnone | ⟨hsome, _⟩
    · exact Or.inl (decay_lookup_none_iter 1 _ _ hnone)
    · have hstep := lookup_decay _ k _ (keys_nodup_decay_iter n cur hnd) hsome
      have hint : (decay_emotion
          { e with intensity := e.intensity * (1 - e.decay_rate)^n }).intensity =
          e.intensity * (1 - e.decay_rate)^(n+1) := by
        simp [decay_emotion, pow_succ, mul_assoc]
      have hrec : decay_emotion
          { e with intensity := e.intensity * (1 - e.decay_rate)^n } =
          { e with intensity := e.intensity * (1 - e.decay_rate)^(n+1) } := by
        simp [decay_emotion, pow_succ, mul_assoc]
      rw [hint, hrec] at hstep
      by_cases hkeep : (1:ℚ)/10 < e.intensity * (1 - e.decay_rate)^(n+1)
      · right
        rw [hstep, if_pos hkeep]
        exact ⟨rfl, fun _ => hkeep⟩
      · left
        rw [hstep, if_neg hkeep]

theorem foldl_pick_mem (xs : List (String × Emotion)) :
    ∀ x : String × Emotion,
      (xs.foldl (fun acc y => if acc.2.intensity < y.2.intensity then y else acc) x)
        ∈ x :: xs := by
  induction xs with
  | nil => intro x; simp
  | cons y ys ih =>
    intro x
    rw [List.foldl_cons]
    have hm := ih (if x.2.intensity < y.2.intensity then y else x)
    rcases List.mem_cons.mp hm with he | hm2
    · rw [he]
      by_cases hxy : x.2.intensity < y.2.intensity
      · rw [if_pos hxy]
        exact List.mem_cons_of_mem _ (List.mem_cons_self _ _)
      · rw [if_neg hxy]
        exact List.mem_cons_self _ _
    · exact List.mem_cons_of_mem _ (List.mem_cons_of_mem _ hm2)

/-- C7: each `decay_emotions` call multiplies every current record's
intensity by (1 − decay_rate), keeping the reduced record exactly when the
new intensity exceeds 0.1 and removing it otherwise; a kept record's
intensity strictly decreases (for positive intensity and decay rate); with
no intervening `process_emotion`, repeated decay eventually drops the record
for good; a dropped key never names the dominant emotion, and
`get_dominant_emotion` returns ("neutral", 0.0) on an empty mapping. -/
theorem decay_dominant_spec :
    (∀ (cur : List (String × Emotion)) (k : String) (e : Emotion),
        (cur.map Prod.fst).Nodup → cur.lookup k = some e →
        (decay_emotions cur).lookup k =
          (if 1/10 < (decay_emotion e).intensity then some (decay_emotion e)
           else none)) ∧
    (∀ e : Emotion, 0 < e.intensity → 0 < e.decay_rate →
        (decay_emotion e).intensity < e.intensity) ∧
    (∀ (cur : List (String × Emotion)) (k : String) (e : Emotion),
        (cur.map Prod.fst).Nodup → cur.lookup k = some e →
        0 < e.intensity → 0 < e.decay_rate → e.decay_rate < 1 →
        ∃ n, ∀ m, n ≤ m → (decay_emotions^[m] cur).lookup k = none) ∧
    (∀ (cur : List (String × Emotion)) (k : String),
        cur.lookup k = none → cur ≠ [] → (get_dominant_emotion cur).1 ≠ k) ∧
    get_dominant_emotion [] = ("neutral", 0) := by
  refine ⟨lookup_decay, fun e hi hr => ?_, fun cur k e hnd h hi hr hr1 => ?_,
    fun cur k hnone hne => ?_, rfl⟩
  · simp only [decay_emotion]
    nlinarith [mul_pos hi hr]
  · have h1r : (0:ℚ) < 1 - e.decay_rate := by linarith
    have hx : (0:ℚ) < (1/10) / e.intensity := div_pos (by norm_num) hi
    have hy : 1 - e.decay_rate < 1 := by linarith
    obtain ⟨n, hn⟩ := exists_pow_lt_of_lt_one hx hy
    have hlt : e.intensity * (1 - e.decay_rate)^n < 1/10 := by
      calc e.intensity * (1 - e.decay_rate)^n
          < e.intensity * ((1/10) / e.intensity) := by
            exact mul_lt_mul_of_pos_left hn hi
        _ = 1/10 := by
            field_simp
            ring
    refine ⟨n + 1, fun m hm => ?_⟩
    have hnone1 : (decay_emotions^[n+1] cur).lookup k = none := by
      rcases decay_iter_lookup cur k e hnd h (n+1) with hx1 | ⟨_, hgt⟩
      · exact hx1
      · exfalso
        have hpow : (1 - e.decay_rate)^(n+1) ≤ (1 - e.decay_rate)^n :=
          pow_le_pow_of_le_one (le_of_lt h1r) (by linarith) (by omega)
        have hle : e.intensity * (1 - e.decay_rate)^(n+1) ≤
            e.intensity * (1 - e.decay_rate)^n :=
          mul_le_mul_of_nonneg_left hpow (le_of_lt hi)
        have := hgt (by omega)
        linarith
    have hd : m = (m - (n+1)) + (n+1) := by omega
    rw [hd, Function.iterate_add_apply]
    exact decay_lookup_none_iter _ _ _ hnone1
  · cases cur with
    | nil => exact absurd rfl hne
    | cons x xs =>
      intro heq
      have hmem := foldl_pick_mem xs x
      have hd1 : (get_dominant_emotion (x :: xs)).1 =
          (xs.foldl (fun acc y =>
            if acc.2.intensity < y.2.intensity then y else acc) x).1 := rfl
      have hkmem : k ∈ (x :: xs).map Prod.fst := by
        rw [← heq, hd1]
        exact List.mem_map_of_mem Prod.fst hmem
      obtain ⟨v, hv⟩ := lookup_is_some_of_mem_keys _ _ hkmem
      rw [hnone] at hv
      exact Option.noConfusion hv

/-- Closed witness for `decay_dominant_spec`: a single "joy" record at
intensity 1 and decay rate 0.1 — the per-step characterization holds, some
number of decay passes removes it for good, and "fear" (absent) is never
dominant. -/
theorem decay_dominant_spec_witness :
    ((decay_emotions current_one).lookup "joy" =
      (if 1/10 < (decay_emotion joy_emotion).intensity
       then some (decay_emotion joy_emotion) else none)) ∧
    (∃ n, ∀ m, n ≤ m → (decay_emotions^[m] current_one).lookup "joy" = none) ∧
    (get_dominant_emotion current_one).1 ≠ "fear" :=
  ⟨decay_dominant_spec.1 current_one "joy" joy_emotion (by decide) rfl,
   decay_dominant_spec.2.2.1 current_one "joy" joy_emotion (by decide) rfl
     (by norm_num [joy_emotion]) (by norm_num [joy_emotion])
     (by norm_num [joy_emotion]),
   decay_dominant_spec.2.2.2.1 current_one "fear" rfl (by simp [current_one])⟩

theorem ethical_maturity_iff (c : ConsciousnessLayer) :
    check_ethical_maturity c = true ↔
      (3/10 < c.state.ethical_framework.empathy ∧
       1/4 < c.state.ethical_framework.harmony) := by
  unfold check_ethical_maturity
  simp [Bool.and_eq_true, decide_eq_true_eq]

/-- C4: for a layer whose bloom threshold is the default 0.95,
`check_silent_bloom_conditions` holds exactly when level ≥ 0.95, the
cross-life thought history has at least 50 entries, the maturity floors hold
(empathy > 0.3 and harmony > 0.25), at least 10 of the most recent 20
thought-history entries contain an existential marker (case-insensitive
substring), and empathy ≥ 0.6 and harmony ≥ 0.5; in particular level 0.96
with fewer than 50 entries yields false. -/
theorem silent_bloom_spec (c : ConsciousnessLayer)
    (hthr : c.silent_bloom_threshold = 95/100) :
    (check_silent_bloom_conditions c = true ↔
      (95/100 ≤ c.state.level ∧
       50 ≤ c.thought_history.length ∧
       (3/10 < c.state.ethical_framework.empathy ∧
        1/4 < c.state.ethical_framework.harmony) ∧
       10 ≤ existential_count c.thought_history ∧
       (3/5 ≤ c.state.ethical_framework.empathy ∧
        1/2 ≤ c.state.ethical_framework.harmony))) ∧
    (c.state.level = 96/100 → c.thought_history.length < 50 →
      check_silent_bloom_conditions c = false) := by
  have hiff : check_silent_bloom_conditions c = true ↔
      (95/100 ≤ c.state.level ∧
       50 ≤ c.thought_history.length ∧
       (3/10 < c.state.ethical_framework.empathy ∧
        1/4 < c.state.ethical_framework.harmony) ∧
       10 ≤ existential_count c.thought_history ∧
       (3/5 ≤ c.state.ethical_framework.empathy ∧
        1/2 ≤ c.state.ethical_framework.harmony)) := by
    unfold check_silent_bloom_conditions
    rw [hthr]
    split_ifs with h1 h2 h3 h4 h5
    · simp only [Bool.false_eq_true, false_iff]
      intro hrhs
      omega
    · simp only [Bool.not_eq_true'] at h3
      simp only [Bool.false_eq_true, false_iff]
      intro hrhs
      have hmat := (ethical_maturity_iff c).mpr hrhs.2.2.1
      rw [h3] at hmat
      exact Bool.false_ne_true hmat
    · simp only [Bool.false_eq_true, false_iff]
      intro hrhs
      omega
    · simp only [Bool.false_eq_true, false_iff]
      intro hrhs
      rcases h5 with h5 | h5
      · exact absurd hrhs.2.2.2.2.1 (not_le.mpr h5)
      · exact absurd hrhs.2.2.2.2.2 (not_le.mpr h5)
    · simp only [true_iff]
      push_neg at h5
      refine ⟨h1, by omega, ?_, by omega, h5.1, h5.2⟩
      have hmat : check_ethical_maturity c = true := by
        revert h3
        cases check_ethical_maturity c <;> simp
      exact (ethical_maturity_iff c).mp hmat
    · simp only [Bool.false_eq_true, false_iff]
      intro hrhs
      exact h1 hrhs.1
  refine ⟨hiff, fun _hlev hlen => ?_⟩
  cases hchk : check_silent_bloom_conditions c with
  | false => rfl
  | true => exact absurd (hiff.mp hchk).2.1 (by omega)

/-- Closed witness for `silent_bloom_spec`: at level 0.96 with an empty
thought history the bloom check is false. -/
theorem silent_bloom_spec_witness :
    check_silent_bloom_conditions bloom_layer = false :=
  (silent_bloom_spec bloom_layer rfl).2 rfl (by decide)

/-- C8 counterexample: the persisted file `[{}]` decodes fine, but its one
record lacks the required Memory fields, so startup loading raises an
uncaught `KeyError` — refuting the claim that loading never raises for any
file content. -/
theorem load_malformed_counterexample :
    startup_load (some (some (.arr [.obj []]))) = .error PyErr.keyError := rfl

/-- C8 amended: a missing file is transparently replaced by an empty valid
snapshot, and a file whose text is not syntactically valid JSON is caught
(`json.JSONDecodeError`), leaving an empty in-memory store with a non-fatal
diagnostic; but a syntactically valid document whose records lack required
Memory fields raises an uncaught `KeyError` (only the decode error is
caught). -/
theorem load_memories_amended :
    startup_load none = .ok [] ∧
    startup_load (some none) = .ok [] ∧
    load_memories none = .ok [] ∧
    startup_load (some (some (.arr [.obj []]))) = .error PyErr.keyError :=
  ⟨rfl, rfl, rfl, rfl⟩

/-- C6 counterexample: an event whose `ethical_impact` is exactly 0.0 does
change the ethical framework (the non-positive branch runs and renormalizes),
refuting the claim that a zero impact leaves the mapping unchanged. -/
theorem evolve_zero_impact_counterexample :
    evolve_ethical_framework init_framework (impact_event 0) ≠ init_framework := by
  intro h
  have h1 := congrArg EthicalFramework.empathy h
  simp only [evolve_ethical_framework, impact_event, init_framework,
    EthicalFramework.total, lt_irrefl, if_false] at h1
  norm_num at h1

/-- C6 amended: the ethical framework is left unchanged exactly when the event
carries no `ethical_impact` key; when the key is present with impact exactly
0.0 the non-positive branch runs (self_preservation + 0.02, then
renormalization by the new total), which in particular moves the initial
framework. -/
theorem evolve_ethical_amended :
    (∀ (f : EthicalFramework) (e : Event), e.ethical_impact = none →
        evolve_ethical_framework f e = f) ∧
    (∀ (f : EthicalFramework) (e : Event), e.ethical_impact = some 0 →
        evolve_ethical_framework f e =
          { empathy := f.empathy / (f.total + 2/100)
            self_preservation := (f.self_preservation + 2/100) / (f.total + 2/100)
            curiosity := f.curiosity / (f.total + 2/100)
            harmony := f.harmony / (f.total + 2/100) }) ∧
    evolve_ethical_framework init_framework (impact_event 0) ≠ init_framework := by
  refine ⟨fun f e he => ?_, fun f e he => ?_, ?_⟩
  · unfold evolve_ethical_framework
    rw [he]
  · unfold evolve_ethical_framework
    rw [he]
    simp only [lt_irrefl, if_false]
    have htot :
        (EthicalFramework.total
          { f with self_preservation := f.self_preservation + 2/100 }) =
          f.total + 2/100 := by
      unfold EthicalFramework.total
      ring
    rw [htot]
  · intro h
    have h1 := congrArg EthicalFramework.empathy h
    simp only [evolve_ethical_framework, impact_event, init_framework,
      EthicalFramework.total, lt_irrefl, if_false] at h1
    norm_num at h1

/-- Closed witness for `evolve_ethical_amended`: a key-free event leaves the
initial framework untouched, by the first conjunct at a concrete input. -/
theorem evolve_ethical_amended_witness :
    evolve_ethical_framework init_framework
      { significance := none, description := none, ethical_impact := none } =
      init_framework :=
  evolve_ethical_amended.1 init_framework _ rfl

/-- C10: a freshly constructed consciousness layer has level 0.1, awareness
type "base" and ethical framework {empathy 0.1, self_preservation 0.5,
curiosity 0.3, harmony 0.2}, whose values sum to 1.1 rather than 1.0; the
sum-to-one normalization only holds after the first update that adjusts the
framework (any update carrying an `ethical_impact` key). -/
theorem init_consciousness_spec :
    init_consciousness_layer.state.level = 1/10 ∧
    init_consciousness_layer.state.awareness_type = "base" ∧
    init_consciousness_layer.state.ethical_framework = init_framework ∧
    init_framework.total = 11/10 ∧
    init_framework.total ≠ 1 ∧
    (∀ q : ℚ, (evolve_ethical_framework init_framework (impact_event q)).total = 1) := by
  refine ⟨rfl, rfl, rfl, by norm_num [init_framework, EthicalFramework.total],
    by norm_num [init_framework, EthicalFramework.total], fun q => ?_⟩
  unfold evolve_ethical_framework impact_event
  by_cases h : 0 < q
  · simp only [h, if_true]
    simp only [init_framework, EthicalFramework.total]
    norm_num
  · simp only [h, if_false]
    simp only [init_framework, EthicalFramework.total]
    norm_num

end SoulGenesis
